import Mathlib

/-!
Shallow embedding of `src/editor/src/plugins/sim/new_des_model/car.rs`
(per-vehicle kinematics and body-geometry reconstruction of the traffic
simulation).  Distances (`geom::Distance`) and durations (`geom::Duration`)
are modelled as rationals; the external map/geometry provider
(`map_model::Map`, `Traversable::length`, `Traversable::slice`) is a record
of functions; Rust panics (`assert!`, `unwrap`, `panic!`) are modelled with
`Except`.
-/

set_option autoImplicit false

namespace NewDesModel

/-- Opaque handle to a directed network segment (`map_model::Traversable`). -/
abbrev Traversable := Nat

/-- A 2D point (`geom::Pt2D`), coordinates as rationals. -/
abbrev Pt := ℚ × ℚ

/-- A polyline is its ordered list of points (`geom::PolyLine`;
`PolyLine::new` and `.points()` are the evident conversions, and
`PolyLine::append` is spatial concatenation preserving point order, per the
external-interface description). -/
abbrev PolyLine := List Pt

/-- The external network/map provider: each segment has a length, and a
slicing operation producing the polyline between two distances along it
(returning `none` for a degenerate request, together with a leftover
distance in the `some` case, as `Traversable::slice` does). -/
structure Map where
  length : Traversable → ℚ
  slice : Traversable → ℚ → ℚ → Option (PolyLine × ℚ)

/-- Vehicle identifier (`sim::CarID`).  Modelled from the spec: the
vehicle-type tag is carried by (and passed through from) the identifier,
since the `sim` crate is external to the sampled source. -/
structure CarID where
  num : Nat
  vtype : Nat
  deriving DecidableEq

/-- Modelled from the spec: `CarID::tmp_get_vehicle_type` derives the
vehicle-type tag from the identifier. -/
def CarID.tmp_get_vehicle_type (id : CarID) : Nat := id.vtype

/-- `TimeInterval { start, end }` from the source (field `end` renamed,
`end` being a Lean keyword). -/
structure TimeInterval where
  start : ℚ
  end_ : ℚ

/-- `DistanceInterval { start, end }` from the source. -/
structure DistanceInterval where
  start : ℚ
  end_ : ℚ

/-- `CarState`: `Crossing(TimeInterval, DistanceInterval)` or `Queued`. -/
inductive CarState where
  | Crossing (ti : TimeInterval) (di : DistanceInterval)
  | Queued

namespace sim

/-- The coarse visual status handed to the renderer (`sim::CarState`). -/
inductive CarState where
  | Stuck
  | Moving
  deriving DecidableEq

end sim

/-- The renderer input produced per vehicle (`sim::DrawCarInput`). -/
structure DrawCarInput where
  id : CarID
  waiting_for_turn : Option Nat
  stopping_trace : Option PolyLine
  state : sim.CarState
  vehicle_type : Nat
  on_ : Traversable
  body : PolyLine

/-- The `Car` struct of the source, fields in source order.  `last_steps`
is the rolling history: most recently left segment first. -/
structure Car where
  id : CarID
  vehicle_len : ℚ
  max_speed : Option ℚ
  path : List Traversable
  end_dist : ℚ
  state : CarState
  last_steps : List Traversable

/-- Failure modes of the (panicking) Rust code, as `Except` errors. -/
inductive Err where
  | negativeFront
  | emptyPath
  | sliceFailed
  | assertFailed
  | spawnedTooClose (id : CarID)
  deriving DecidableEq

/-- The loop of `Car::trim_last_steps`: walk the history from the front,
accumulating segment lengths (`len`), keeping each segment, and stop right
after the accumulated length first reaches `vehicle_len`. -/
def trimGo (m : Map) (vehicle_len : ℚ) : ℚ → List Traversable → List Traversable
  | _, [] => []
  | len, step :: rest =>
    let len' := len + m.length step
    if vehicle_len ≤ len' then [step] else step :: trimGo m vehicle_len len' rest

/-- `Car::trim_last_steps`: replace `last_steps` by its trimmed form. -/
def Car.trim_last_steps (c : Car) (m : Map) : Car :=
  { c with last_steps := trimGo m c.vehicle_len 0 c.last_steps }

/-- Sum of the map-reported lengths of a list of segments. -/
def sumLen (m : Map) (steps : List Traversable) : ℚ :=
  (steps.map m.length).sum

/-- The status mapping of `get_draw_car`: `Queued ↦ Stuck`,
`Crossing ↦ Moving`. -/
def drawState : CarState → sim.CarState
  | CarState.Queued => sim.CarState.Stuck
  | CarState.Crossing _ _ => sim.CarState.Moving

/-- The backward walk of `Car::get_draw_car` (its `while leftover > 0`
loop over `last_steps`): for each history segment of length `len`, slice
its tail from `max (len - leftover) 0` to `len`, prepend the piece, then
decrement `leftover` by the full `len`; running out of history while
`leftover > 0` is the `spawned too close` panic, which names the car. -/
def drawBodyLoop (carId : CarID) (m : Map) :
    List Traversable → ℚ → List Pt → Except Err (List Pt)
  | steps, leftover, result =>
    if 0 < leftover then
      match steps with
      | [] => Except.error (Err.spawnedTooClose carId)
      | step :: rest =>
        let len := m.length step
        let start := max (len - leftover) 0
        let piece := ((m.slice step start len).map fun pr => pr.1).getD []
        drawBodyLoop carId m rest (leftover - len) (piece ++ result)
    else
      Except.ok result

/-- `Car::get_draw_car`.  The `assert!(front >= Distance::ZERO)` and the
panics (indexing an empty `path`, `unwrap` of the case-1 slice, the
history-exhaustion panic) become `Except.error`. -/
def Car.get_draw_car (c : Car) (front : ℚ) (m : Map) : Except Err DrawCarInput :=
  if front < 0 then Except.error Err.negativeFront
  else
    match c.path with
    | [] => Except.error Err.emptyPath
    | p0 :: _ =>
      (if c.vehicle_len ≤ front then
          match m.slice p0 (front - c.vehicle_len) front with
          | some pr => Except.ok pr.1
          | none => Except.error Err.sliceFailed
        else
          drawBodyLoop c.id m c.last_steps (c.vehicle_len - front)
            (((m.slice p0 0 front).map fun pr => pr.1).getD [])).map
        fun body =>
          { id := c.id
            waiting_for_turn := none
            stopping_trace := none
            state := drawState c.state
            vehicle_type := c.id.tmp_get_vehicle_type
            on_ := p0
            body := body }

/-- `TimeInterval::percent`: `(t - start) / (end - start)`, asserted to lie
in `[0, 1]`. -/
def TimeInterval.percent (i : TimeInterval) (t : ℚ) : Except Err ℚ :=
  let x := (t - i.start) / (i.end_ - i.start)
  if 0 ≤ x ∧ x ≤ 1 then Except.ok x else Except.error Err.assertFailed

/-- `DistanceInterval::lerp`: asserts `x ∈ [0, 1]`, then returns
`start + x * (end - start)`. -/
def DistanceInterval.lerp (d : DistanceInterval) (x : ℚ) : Except Err ℚ :=
  if 0 ≤ x ∧ x ≤ 1 then Except.ok (d.start + x * (d.end_ - d.start))
  else Except.error Err.assertFailed

/-- A polyline-length measure `plLen` is consistent with a map's slicing
when every in-range successful slice yields a polyline of length
`b - a`. -/
def SliceConsistent (m : Map) (plLen : PolyLine → ℚ) : Prop :=
  ∀ (step : Traversable) (a b : ℚ) (pl : PolyLine) (lo : ℚ),
    0 ≤ a → a ≤ b → b ≤ m.length step →
    m.slice step a b = some (pl, lo) → plLen pl = b - a

/-- Concrete map for Scenario A: segment 0 (current) has length 10,
segment 1 (history front) has length 2, every other segment length 7; a
slice of segment `s` from `a` to `b` is the two-point polyline
`[(s, a), (s, b)]`. -/
def mapA : Map where
  length := fun s => if s = 0 then 10 else if s = 1 then 2 else 7
  slice := fun s a b => some ([((s : ℚ), a), ((s : ℚ), b)], 0)

/-- Concrete car for Scenario A: `vehicle_len = 5`, current segment 0,
history starting with segment 1 followed by arbitrary further history. -/
def carA (histRest : List Traversable) : Car where
  id := ⟨1, 0⟩
  vehicle_len := 5
  max_speed := none
  path := [0]
  end_dist := 0
  state := CarState.Queued
  last_steps := 1 :: histRest

/-- Concrete map for Scenario B (slices always degenerate; lengths 10). -/
def mapB : Map where
  length := fun _ => 10
  slice := fun _ _ _ => none

/-- Concrete car for Scenario B: `vehicle_len = 5`, empty history. -/
def carB : Car where
  id := ⟨2, 0⟩
  vehicle_len := 5
  max_speed := none
  path := [0]
  end_dist := 0
  state := CarState.Queued
  last_steps := []

/-- Concrete map for Scenario C: every segment has length 100 and a slice
from `a` to `b` is the flat two-point polyline `[(a, 0), (b, 0)]`. -/
def mapC : Map where
  length := fun _ => 100
  slice := fun _ a b => some ([(a, 0), (b, 0)], 0)

/-- Length measure matching `mapC`: the horizontal extent of a two-point
polyline. -/
def plLenC : PolyLine → ℚ
  | [p, q] => q.1 - p.1
  | _ => 0

/-- Concrete car for Scenario C: `vehicle_len = 5`, currently crossing. -/
def carC : Car where
  id := ⟨3, 1⟩
  vehicle_len := 5
  max_speed := none
  path := [0]
  end_dist := 0
  state := CarState.Crossing ⟨0, 1⟩ ⟨0, 1⟩
  last_steps := []

/- ### Helper lemmas -/

theorem except_map_ok {α β γ : Type} (f : α → β) (e : Except γ α) (b : β)
    (h : e.map f = Except.ok b) : ∃ a, e = Except.ok a ∧ b = f a := by
  cases e with
  | error _ => simp [Except.map] at h
  | ok a => exact ⟨a, rfl, by simpa [Except.map] using h.symm⟩

theorem sumLen_nonneg (m : Map) (steps : List Traversable)
    (h : ∀ s ∈ steps, 0 ≤ m.length s) : 0 ≤ sumLen m steps := by
  simp only [sumLen]
  apply List.sum_nonneg
  intro x hx
  obtain ⟨s, hs, rfl⟩ := List.mem_map.mp hx
  exact h s hs

theorem drawBodyLoop_done (carId : CarID) (m : Map) (steps : List Traversable)
    (leftover : ℚ) (result : List Pt) (h : leftover ≤ 0) :
    drawBodyLoop carId m steps leftover result = Except.ok result := by
  cases steps <;> simp [drawBodyLoop, not_lt.mpr h]

theorem drawBodyLoop_cons (carId : CarID) (m : Map) (step : Traversable)
    (rest : List Traversable) (leftover : ℚ) (result : List Pt)
    (h : 0 < leftover) :
    drawBodyLoop carId m (step :: rest) leftover result =
      drawBodyLoop carId m rest (leftover - m.length step)
        ((((m.slice step (max (m.length step - leftover) 0) (m.length step)).map
          fun pr => pr.1).getD []) ++ result) := by
  simp [drawBodyLoop, h]

theorem drawBodyLoop_ok (carId : CarID) (m : Map) :
    ∀ (steps : List Traversable) (leftover : ℚ) (result : List Pt),
      leftover ≤ sumLen m steps →
      ∃ body, drawBodyLoop carId m steps leftover result = Except.ok body := by
  intro steps
  induction steps with
  | nil =>
    intro leftover result h
    exact ⟨result, drawBodyLoop_done _ _ _ _ _ (by simpa [sumLen] using h)⟩
  | cons a rest ih =>
    intro leftover result h
    by_cases h0 : 0 < leftover
    · obtain ⟨body, hb⟩ := ih (leftover - m.length a)
        ((((m.slice a (max (m.length a - leftover) 0) (m.length a)).map
          fun pr => pr.1).getD []) ++ result)
        (by simp only [sumLen, List.map_cons, List.sum_cons] at h ⊢; linarith)
      exact ⟨body, by rw [drawBodyLoop_cons _ _ _ _ _ _ h0]; exact hb⟩
    · exact ⟨result, drawBodyLoop_done _ _ _ _ _ (not_lt.mp h0)⟩

theorem drawBodyLoop_exhaust (carId : CarID) (m : Map) :
    ∀ (steps : List Traversable) (leftover : ℚ) (result : List Pt),
      (∀ s ∈ steps, 0 ≤ m.length s) →
      sumLen m steps < leftover →
      drawBodyLoop carId m steps leftover result =
        Except.error (Err.spawnedTooClose carId) := by
  intro steps
  induction steps with
  | nil =>
    intro leftover result _ h
    have h0 : 0 < leftover := by simpa [sumLen] using h
    simp [drawBodyLoop, h0]
  | cons a rest ih =>
    intro leftover result hnn h
    have hrest : 0 ≤ sumLen m rest :=
      sumLen_nonneg m rest (fun s hs => hnn s (List.mem_cons_of_mem _ hs))
    have ha : 0 ≤ m.length a := hnn a (List.mem_cons_self _ _)
    have hsum : sumLen m (a :: rest) = m.length a + sumLen m rest := by
      simp [sumLen]
    have h0 : 0 < leftover := by rw [hsum] at h; linarith
    rw [drawBodyLoop_cons _ _ _ _ _ _ h0]
    exact ih (leftover - m.length a) _
      (fun s hs => hnn s (List.mem_cons_of_mem _ hs))
      (by rw [hsum] at h; linarith)

theorem get_draw_car_ok (c : Car) (front : ℚ) (m : Map)
    (p0 : Traversable) (rest : List Traversable)
    (hpath : c.path = p0 :: rest)
    (hslice : c.vehicle_len ≤ front →
      ∃ pr, m.slice p0 (front - c.vehicle_len) front = some pr)
    (hhist : front < c.vehicle_len →
      c.vehicle_len - front ≤ sumLen m c.last_steps)
    (hge : 0 ≤ front) :
    ∃ out, c.get_draw_car front m = Except.ok out := by
  by_cases hcase : c.vehicle_len ≤ front
  · obtain ⟨pr, hpr⟩ := hslice hcase
    refine ⟨⟨c.id, none, none, drawState c.state, c.id.tmp_get_vehicle_type,
      p0, pr.1⟩, ?_⟩
    simp only [Car.get_draw_car, hpath, not_lt.mpr hge, if_false, if_pos hcase,
      hpr, Except.map]
  · obtain ⟨body, hb⟩ := drawBodyLoop_ok c.id m c.last_steps
      (c.vehicle_len - front) (((m.slice p0 0 front).map fun pr => pr.1).getD [])
      (hhist (not_le.mp hcase))
    refine ⟨⟨c.id, none, none, drawState c.state, c.id.tmp_get_vehicle_type,
      p0, body⟩, ?_⟩
    simp only [Car.get_draw_car, hpath, not_lt.mpr hge, if_false,
      if_neg hcase, hb, Except.map]

theorem trimGo_isPrefixList (m : Map) (v : ℚ) :
    ∀ (len : ℚ) (steps : List Traversable),
      ∃ t, trimGo m v len steps ++ t = steps := by
  intro len steps
  induction steps generalizing len with
  | nil => exact ⟨[], rfl⟩
  | cons a rest ih =>
    by_cases h : v ≤ len + m.length a
    · exact ⟨rest, by simp [trimGo, h]⟩
    · obtain ⟨t, ht⟩ := ih (len + m.length a)
      exact ⟨t, by simp [trimGo, h, ht]⟩

theorem trimGo_sum (m : Map) (v : ℚ) :
    ∀ (len : ℚ) (steps : List Traversable),
      v - len ≤ sumLen m (trimGo m v len steps) ∨ trimGo m v len steps = steps := by
  intro len steps
  induction steps generalizing len with
  | nil => exact Or.inr rfl
  | cons a rest ih =>
    by_cases h : v ≤ len + m.length a
    · left
      simp only [trimGo, h, if_true, sumLen, List.map_cons, List.map_nil,
        List.sum_cons, List.sum_nil]
      linarith
    · rcases ih (len + m.length a) with hsum | heq
      · left
        simp only [trimGo, h, if_false, sumLen, List.map_cons, List.sum_cons]
        simp only [sumLen] at hsum
        linarith
      · right
        simp [trimGo, h, heq]

theorem trimGo_full (m : Map) (v : ℚ) :
    ∀ (len : ℚ) (steps : List Traversable),
      (∀ s ∈ steps, 0 ≤ m.length s) → len + sumLen m steps < v →
      trimGo m v len steps = steps := by
  intro len steps
  induction steps generalizing len with
  | nil => intro _ _; rfl
  | cons a rest ih =>
    intro hnn hlt
    have hrest : 0 ≤ sumLen m rest := by
      simp only [sumLen]
      apply List.sum_nonneg
      intro x hx
      obtain ⟨s, hs, rfl⟩ := List.mem_map.mp hx
      exact hnn s (List.mem_cons_of_mem _ hs)
    have hsum : sumLen m (a :: rest) = m.length a + sumLen m rest := by
      simp [sumLen]
    have h : ¬ v ≤ len + m.length a := by rw [hsum] at hlt; linarith
    have := ih (len + m.length a) (fun s hs => hnn s (List.mem_cons_of_mem _ hs))
      (by rw [hsum] at hlt; linarith)
    simp [trimGo, h, this]

theorem trimGo_idem (m : Map) (v : ℚ) :
    ∀ (len : ℚ) (steps : List Traversable),
      trimGo m v len (trimGo m v len steps) = trimGo m v len steps := by
  intro len steps
  induction steps generalizing len with
  | nil => rfl
  | cons a rest ih =>
    by_cases h : v ≤ len + m.length a
    · simp [trimGo, h]
    · simp [trimGo, h, ih (len + m.length a)]

theorem mapC_consistent : SliceConsistent mapC plLenC := by
  intro step a b pl lo _ _ _ h
  simp only [mapC, Option.some.injEq, Prod.mk.injEq] at h
  obtain ⟨h1, -⟩ := h
  subst h1
  simp [plLenC]

/- ### Claim theorems -/

/-- C2: trimming returns a prefix of the input history (same order); the
kept prefix's accumulated length is ≥ `vehicle_len` or the result is the
entire input; and when all lengths are nonnegative and the total length of
the history is insufficient to reach `vehicle_len`, the entire input is
returned unchanged. -/
theorem trim_last_steps_spec (c : Car) (m : Map) :
    (∃ t, (c.trim_last_steps m).last_steps ++ t = c.last_steps) ∧
    (c.vehicle_len ≤ sumLen m (c.trim_last_steps m).last_steps ∨
      (c.trim_last_steps m).last_steps = c.last_steps) ∧
    ((∀ s ∈ c.last_steps, 0 ≤ m.length s) →
      sumLen m c.last_steps < c.vehicle_len →
      (c.trim_last_steps m).last_steps = c.last_steps) := by
  refine ⟨trimGo_isPrefixList m c.vehicle_len 0 c.last_steps, ?_, ?_⟩
  · rcases trimGo_sum m c.vehicle_len 0 c.last_steps with h | h
    · left; simpa using h
    · right; exact h
  · intro hnn hlt
    exact trimGo_full m c.vehicle_len 0 c.last_steps hnn (by linarith)

/-- C2 witness: a short-history car (total length 6 < vehicle length 10)
keeps its entire history. -/
theorem trim_last_steps_spec_witness :
    ((Car.mk ⟨0, 0⟩ 10 none [0] 0 CarState.Queued [1, 2, 3]).trim_last_steps
      (Map.mk (fun _ => 2) (fun _ _ _ => none))).last_steps = [1, 2, 3] :=
  (trim_last_steps_spec (Car.mk ⟨0, 0⟩ 10 none [0] 0 CarState.Queued [1, 2, 3])
    (Map.mk (fun _ => 2) (fun _ _ _ => none))).2.2
    (by intro s _; norm_num) (by norm_num [sumLen])

/-- C5: trimming is idempotent: re-trimming an already-trimmed car (same
map, nothing appended in between) returns the car unchanged. -/
theorem trim_last_steps_idem (c : Car) (m : Map) :
    (c.trim_last_steps m).trim_last_steps m = c.trim_last_steps m := by
  simp [Car.trim_last_steps, trimGo_idem]

/-- C1: Scenario A of the spanning-history reconstruction: with
`vehicle_len = 5`, current segment 0 (length 10), `front = 3` and history
front segment 1 (length 2), the body is the slice `(0, 3)` of the current
segment prepended (spatially before) with the tail slice `(0, 2)` of
history segment 1; `leftover` is decremented by the full segment length
(2 − 2 = 0), so the walk stops after exactly one history segment — the
result is the same for every further history `histRest`. -/
theorem get_draw_car_scenarioA (histRest : List Traversable) :
    (carA histRest).get_draw_car 3 mapA =
      Except.ok ⟨⟨1, 0⟩, none, none, sim.CarState.Stuck, 0, 0,
        [(1, 0), (1, 2), (0, 0), (0, 3)]⟩ := by
  have hbody : drawBodyLoop ⟨1, 0⟩ mapA (1 :: histRest) 2
      [((0 : ℚ), (0 : ℚ)), ((0 : ℚ), (3 : ℚ))] =
      Except.ok [(1, 0), (1, 2), (0, 0), (0, 3)] := by
    rw [drawBodyLoop_cons _ _ _ _ _ _ (by norm_num)]
    rw [drawBodyLoop_done _ _ _ _ _ (by norm_num [mapA])]
    norm_num [mapA]
  have hfirst : ((mapA.slice 0 0 3).map fun pr => pr.1).getD [] =
      [((0 : ℚ), (0 : ℚ)), ((0 : ℚ), (3 : ℚ))] := by norm_num [mapA]
  norm_num at hbody
  norm_num [Car.get_draw_car, carA, hfirst, hbody, Except.map, drawState,
    CarID.tmp_get_vehicle_type]

/-- C3: when `vehicle_len ≤ front` (including equality), `get_draw_car`
slices the current segment `path[0]` from `front - vehicle_len` to `front`,
consults no history (the result is the same for every `last_steps`), and —
whenever the slicing operation is consistent with the segment's reported
length — the body polyline has length exactly `vehicle_len`. -/
theorem get_draw_car_case1 (c : Car) (front : ℚ) (m : Map)
    (plLen : PolyLine → ℚ) (p0 : Traversable) (rest : List Traversable)
    (pl : PolyLine) (lo : ℚ)
    (hpath : c.path = p0 :: rest)
    (hvlen : 0 ≤ c.vehicle_len)
    (hfront : c.vehicle_len ≤ front)
    (hlen : front ≤ m.length p0)
    (hcons : SliceConsistent m plLen)
    (hslice : m.slice p0 (front - c.vehicle_len) front = some (pl, lo)) :
    (∀ hist : List Traversable,
      Car.get_draw_car { c with last_steps := hist } front m =
        Except.ok ⟨c.id, none, none, drawState c.state,
          c.id.tmp_get_vehicle_type, p0, pl⟩) ∧
    plLen pl = c.vehicle_len := by
  have hge : ¬ front < 0 := not_lt.mpr (le_trans hvlen hfront)
  constructor
  · intro hist
    simp only [Car.get_draw_car, hpath, hge, if_false, if_pos hfront, hslice,
      Except.map]
  · have h := hcons p0 (front - c.vehicle_len) front pl lo
      (sub_nonneg.mpr hfront) (by linarith) hlen hslice
    rw [h]; ring

/-- C3 witness: Scenario C — `front = vehicle_len = 5` exactly; case 1
triggers, slicing `[0, 5]` of the current segment, and the measured body
length is 5. -/
theorem get_draw_car_case1_witness :
    Car.get_draw_car carC 5 mapC =
      Except.ok ⟨⟨3, 1⟩, none, none, sim.CarState.Moving, 1, 0,
        [((0 : ℚ), (0 : ℚ)), ((5 : ℚ), (0 : ℚ))]⟩ ∧
    plLenC [((0 : ℚ), (0 : ℚ)), ((5 : ℚ), (0 : ℚ))] = 5 := by
  have h := get_draw_car_case1 carC 5 mapC plLenC 0 []
    [((0 : ℚ), (0 : ℚ)), ((5 : ℚ), (0 : ℚ))] 0
    rfl (by norm_num [carC]) (by norm_num [carC]) (by norm_num [mapC])
    mapC_consistent (by norm_num [mapC, carC])
  refine ⟨?_, by simpa [carC] using h.2⟩
  have h1 := h.1 carC.last_steps
  simpa [carC, drawState, CarID.tmp_get_vehicle_type] using h1

/-- C4: when the backward walk exhausts the history while the leftover
body length is still positive (in particular Scenario B: `vehicle_len = 5`,
`front = 0`, empty history), `get_draw_car` fails with the
history-exhaustion error naming the offending vehicle, and never returns a
truncated body. -/
theorem get_draw_car_exhaust (c : Car) (front : ℚ) (m : Map)
    (hge : 0 ≤ front) (hlt : front < c.vehicle_len)
    (hpath : c.path ≠ [])
    (hnn : ∀ s ∈ c.last_steps, 0 ≤ m.length s)
    (hins : sumLen m c.last_steps < c.vehicle_len - front) :
    c.get_draw_car front m = Except.error (Err.spawnedTooClose c.id) := by
  obtain ⟨p0, rest, hp⟩ := List.exists_cons_of_ne_nil hpath
  have hb := drawBodyLoop_exhaust c.id m c.last_steps (c.vehicle_len - front)
    (((m.slice p0 0 front).map fun pr => pr.1).getD []) hnn hins
  simp only [Car.get_draw_car, hp, not_lt.mpr hge, if_false,
    if_neg (not_le.mpr hlt), hb, Except.map]

/-- C4 witness: Scenario B — `vehicle_len = 5`, `front = 0`, empty
history: the history-exhaustion error names car 2. -/
theorem get_draw_car_exhaust_witness :
    carB.get_draw_car 0 mapB = Except.error (Err.spawnedTooClose ⟨2, 0⟩) :=
  get_draw_car_exhaust carB 0 mapB le_rfl (by norm_num [carB])
    (by simp [carB]) (by simp [carB]) (by norm_num [carB, mapB, sumLen])

/-- C6: for a vehicle whose other preconditions hold (non-empty path, the
case-1 slice succeeds when applicable, and the history is long enough when
applicable), `get_draw_car` fails if and only if `front < 0`; for every
`front ≥ 0` the negative-front check passes and a result is returned. -/
theorem get_draw_car_fails_iff (c : Car) (front : ℚ) (m : Map)
    (p0 : Traversable) (rest : List Traversable)
    (hpath : c.path = p0 :: rest)
    (hslice : c.vehicle_len ≤ front →
      ∃ pr, m.slice p0 (front - c.vehicle_len) front = some pr)
    (hhist : front < c.vehicle_len →
      c.vehicle_len - front ≤ sumLen m c.last_steps) :
    (∃ e, c.get_draw_car front m = Except.error e) ↔ front < 0 := by
  constructor
  · rintro ⟨e, he⟩
    by_contra hge
    obtain ⟨out, hout⟩ := get_draw_car_ok c front m p0 rest hpath hslice hhist
      (not_lt.mp hge)
    rw [hout] at he
    exact absurd he (by simp)
  · intro h
    exact ⟨Err.negativeFront, by simp [Car.get_draw_car, h]⟩

/-- C6 witness: a well-formed vehicle queried at `front = 3 ≥ 0` does not
fail. -/
theorem get_draw_car_fails_iff_witness :
    ¬ ∃ e, (carA []).get_draw_car 3 mapA = Except.error e := by
  intro hex
  have h := (get_draw_car_fails_iff (carA []) 3 mapA 0 [] rfl
    (fun _ => ⟨_, rfl⟩)
    (by intro _; norm_num [carA, mapA, sumLen])).mp hex
  norm_num at h

/-- C7: the visual status in a successful reconstruction output depends on
the state variant only — `Queued` maps to `Stuck` and every
`Crossing(ti, di)`, regardless of the intervals, maps to `Moving` — and the
output carries the vehicle's id, its current segment `path[0]`, and the
vehicle-type tag derived from the id. -/
theorem get_draw_car_output (c : Car) (front : ℚ) (m : Map)
    (out : DrawCarInput)
    (h : c.get_draw_car front m = Except.ok out) :
    out.id = c.id ∧
    out.vehicle_type = c.id.tmp_get_vehicle_type ∧
    out.state = drawState c.state ∧
    (c.state = CarState.Queued → out.state = sim.CarState.Stuck) ∧
    (∀ ti di, c.state = CarState.Crossing ti di →
      out.state = sim.CarState.Moving) ∧
    (∀ p0 rest, c.path = p0 :: rest → out.on_ = p0) := by
  by_cases hneg : front < 0
  · simp [Car.get_draw_car, hneg] at h
  · cases hp : c.path with
    | nil =>
      rw [show c.get_draw_car front m = Except.error Err.emptyPath by
        simp [Car.get_draw_car, hneg, hp]] at h
      exact absurd h (by simp)
    | cons p0 rest =>
      simp only [Car.get_draw_car, if_neg hneg, hp] at h
      obtain ⟨body, hE, hout⟩ := except_map_ok _ _ _ h
      subst hout
      refine ⟨rfl, rfl, rfl, ?_, ?_, ?_⟩
      · intro hq
        show drawState c.state = sim.CarState.Stuck
        rw [hq]; rfl
      · intro ti di hcr
        show drawState c.state = sim.CarState.Moving
        rw [hcr]; rfl
      · intro q0 qrest hq
        injection hq

/-- C7 witness: the crossing car of Scenario C reports `Moving`. -/
theorem get_draw_car_output_witness :
    (DrawCarInput.mk ⟨3, 1⟩ none none sim.CarState.Moving 1 0
      [((0 : ℚ), (0 : ℚ)), ((5 : ℚ), (0 : ℚ))]).state = drawState carC.state :=
  (get_draw_car_output carC 5 mapC _
    (by norm_num [Car.get_draw_car, carC, mapC, Except.map, drawState,
      CarID.tmp_get_vehicle_type])).2.2.1

/-- C8: for `start < end`, `percent t` returns
`(t - start) / (end - start)` for every `t ∈ [start, end]`; hence
`percent start = 0`, `percent end = 1`, the returned fraction is monotone
in `t`, and any `t` outside `[start, end]` is rejected by the assertion
rather than returned. -/
theorem timeInterval_percent_spec (i : TimeInterval) (hs : i.start < i.end_) :
    (∀ t, i.start ≤ t → t ≤ i.end_ →
      i.percent t = Except.ok ((t - i.start) / (i.end_ - i.start))) ∧
    i.percent i.start = Except.ok 0 ∧
    i.percent i.end_ = Except.ok 1 ∧
    (∀ t1 t2, i.start ≤ t1 → t1 ≤ t2 → t2 ≤ i.end_ →
      (t1 - i.start) / (i.end_ - i.start) ≤
        (t2 - i.start) / (i.end_ - i.start)) ∧
    (∀ t, t < i.start ∨ i.end_ < t →
      i.percent t = Except.error Err.assertFailed) := by
  have hpos : 0 < i.end_ - i.start := sub_pos.mpr hs
  have hin : ∀ t, i.start ≤ t → t ≤ i.end_ →
      i.percent t = Except.ok ((t - i.start) / (i.end_ - i.start)) := by
    intro t h1 h2
    have hx0 : 0 ≤ (t - i.start) / (i.end_ - i.start) :=
      div_nonneg (by linarith) (le_of_lt hpos)
    have hx1 : (t - i.start) / (i.end_ - i.start) ≤ 1 := by
      rw [div_le_one hpos]; linarith
    simp [TimeInterval.percent, hx0, hx1]
  refine ⟨hin, ?_, ?_, ?_, ?_⟩
  · simpa using hin i.start le_rfl (le_of_lt hs)
  · rw [hin i.end_ (le_of_lt hs) le_rfl, div_self (ne_of_gt hpos)]
  · intro t1 t2 _ h2 _
    rw [div_le_div_iff₀ hpos hpos]
    nlinarith
  · intro t ht
    rcases ht with h | h
    · have hx : (t - i.start) / (i.end_ - i.start) < 0 :=
        div_neg_of_neg_of_pos (by linarith) hpos
      simp [TimeInterval.percent, not_le.mpr hx]
    · have hx : 1 < (t - i.start) / (i.end_ - i.start) := by
        rw [lt_div_iff₀ hpos]; linarith
      simp [TimeInterval.percent, not_le.mpr hx]

/-- C8 witness: `percent` of the right endpoint of `[0, 2]` is 1. -/
theorem timeInterval_percent_spec_witness :
    (TimeInterval.mk 0 2).percent 2 = Except.ok 1 :=
  (timeInterval_percent_spec ⟨0, 2⟩ (by norm_num)).2.2.1

/-- C9: for `start ≤ end` and `x ∈ [0, 1]`, `lerp x` returns
`start + x * (end - start)`; hence `lerp 0 = start`, `lerp 1 = end`, the
value is monotone in `x`, and any `x` outside `[0, 1]` is rejected by the
assertion rather than producing a value. -/
theorem distanceInterval_lerp_spec (d : DistanceInterval)
    (hd : d.start ≤ d.end_) :
    (∀ x, 0 ≤ x → x ≤ 1 →
      d.lerp x = Except.ok (d.start + x * (d.end_ - d.start))) ∧
    d.lerp 0 = Except.ok d.start ∧
    d.lerp 1 = Except.ok d.end_ ∧
    (∀ x1 x2, 0 ≤ x1 → x1 ≤ x2 → x2 ≤ 1 →
      d.start + x1 * (d.end_ - d.start) ≤ d.start + x2 * (d.end_ - d.start)) ∧
    (∀ x, x < 0 ∨ 1 < x → d.lerp x = Except.error Err.assertFailed) := by
  refine ⟨?_, ?_, ?_, ?_, ?_⟩
  · intro x h0 h1
    simp [DistanceInterval.lerp, h0, h1]
  · norm_num [DistanceInterval.lerp]
  · norm_num [DistanceInterval.lerp]
  · intro x1 x2 _ h12 _
    have h := mul_le_mul_of_nonneg_right h12 (sub_nonneg.mpr hd)
    linarith
  · intro x hx
    rcases hx with h | h
    · simp [DistanceInterval.lerp, not_le.mpr h]
    · simp [DistanceInterval.lerp, not_le.mpr h]

/-- C9 witness: `lerp 1` on `[1, 3]` is the right endpoint 3. -/
theorem distanceInterval_lerp_spec_witness :
    (DistanceInterval.mk 1 3).lerp 1 = Except.ok 3 :=
  (distanceInterval_lerp_spec ⟨1, 3⟩ (by norm_num)).2.2.1

/-- C10: trimming changes only the `last_steps` field: `id`, `vehicle_len`,
`max_speed`, `path`, `end_dist` and `state` are untouched. -/
theorem trim_last_steps_frame (c : Car) (m : Map) :
    (c.trim_last_steps m).id = c.id ∧
    (c.trim_last_steps m).vehicle_len = c.vehicle_len ∧
    (c.trim_last_steps m).max_speed = c.max_speed ∧
    (c.trim_last_steps m).path = c.path ∧
    (c.trim_last_steps m).end_dist = c.end_dist ∧
    (c.trim_last_steps m).state = c.state :=
  ⟨rfl, rfl, rfl, rfl, rfl, rfl⟩

end NewDesModel
